import Mathlib

/-!
Verification of the coordinated-behavior detection pipeline
(`get_coordinated_behavior` in `app.py`, the `/api/coordinated` endpoint).

The pipeline is embedded shallowly:

* Python floats are modelled as exact rationals (`ℚ`).  All rational
  arithmetic is performed through `mkRat`-based helpers (`qadd`, `qmul`, …)
  so that every value stays in normalised constructor form and concrete
  runs evaluate inside the kernel.
* `pandas.Timestamp` values are modelled as integer seconds (`Int`);
  `pd.Timedelta(seconds=w)` is integer addition.
* The TF-IDF vectorizer and `cosine_similarity` are external library calls
  (`sklearn`); the engine is therefore a parameter: a pairwise similarity
  function `sim : Nat → Nat → ℚ` on positions of the time-sorted post list,
  or an `Except` error when vectorisation fails (the `try`/`except` in the
  source).  The link/hashtag boost logic of the source is embedded
  explicitly on top of `sim`.
* The `re.findall` URL/hashtag extraction is modelled by the `urls` and
  `hashtags` fields of `Post` (the extracted token sets).
* `pandas.str.contains(query, case=False)` is modelled as case-insensitive
  substring matching (the claims only exercise metacharacter-free queries).
* Python's `round(x, 3)` is modelled as rounding to 3 decimal places
  (half-up over exact rationals).
* `print(...)` output is collected in `RunResult.printed`; an uncaught
  Python exception is an `Except.error` response.
-/

namespace Coordination

/-! ### Character/string helpers (case-insensitive substring matching) -/

/-- ASCII lower-casing of one character, as CPython does for the ASCII range. -/
def lowerChar (c : Char) : Char :=
  if 'A' ≤ c ∧ c ≤ 'Z' then Char.ofNat (c.toNat + 32) else c

/-- Lower-cased character list of a string. -/
def lowerList (s : String) : List Char := s.data.map lowerChar

/-- Is `pat` a prefix of `l`? -/
def chPre : List Char → List Char → Bool
  | [], _ => true
  | _ :: _, [] => false
  | a :: as, b :: bs => a = b && chPre as bs

/-- Does `l` contain `pat` as a contiguous substring? -/
def hasSub (pat : List Char) : List Char → Bool
  | [] => pat.isEmpty
  | c :: rest => chPre pat (c :: rest) || hasSub pat rest

/-- Case-insensitive substring containment, modelling
`Series.str.contains(query, case=False, na=False)` for a regex-free query. -/
def containsCI (hay pat : String) : Bool := hasSub (lowerList pat) (lowerList hay)

/-! ### Exact rational arithmetic helpers

`Rat.add`/`Rat.mul`/`Rat.div` are irreducible in this toolchain, so the
embedding uses `mkRat` directly; `mkRat` normalises, hence these helpers
compute the exact rational sum/product/quotient. -/

/-- Exact rational addition. -/
def qadd (a b : ℚ) : ℚ := mkRat (a.num * b.den + b.num * a.den) (a.den * b.den)

/-- Exact rational multiplication. -/
def qmul (a b : ℚ) : ℚ := mkRat (a.num * b.num) (a.den * b.den)

/-- Python's `round(x, 3)`: rounding to 3 decimal places (half-up over ℚ;
CPython uses half-even on binary floats, a distinction below the
granularity of this model). -/
def round3 (q : ℚ) : ℚ := mkRat (Rat.floor (qadd (qmul q (mkRat 1000 1)) (mkRat 1 2))) 1000

/-! ### Data model -/

/-- One normalised social-media submission, as used by the pipeline.
`urls`/`hashtags` model the token sets extracted by
`re.findall(r'https?://\S+', selftext)` / `re.findall(r'#\w+', selftext)`. -/
structure Post where
  author : String
  id : String
  created_utc : Int
  title : String
  selftext : String
  permalink : String
  urls : List String
  hashtags : List String
deriving DecidableEq

/-- One serialised post dictionary inside a group, as built at lines
801-808 (anchor) and 849-859 (matched member) of the source.  Keys absent
from the anchor dictionary are `none`. -/
structure PostEntry where
  author : String
  id : String
  created_utc : Int
  title : String
  selftext : String
  url : String
  similarity_score : Option ℚ := none
  shared_links : Option Bool := none
  shared_hashtags : Option Bool := none
deriving DecidableEq

/-- A non-anchor member admitted during one anchor's window scan, together
with the position (`idx`) it occupies in the time-sorted post list and the
boosted (unrounded) similarity under which it was admitted. -/
structure Member where
  idx : Nat
  post : Post
  sharedLinks : Bool
  sharedHashtags : Bool
  score : ℚ
deriving DecidableEq

/-- One coordination group at the index level: the anchor (position and
post) plus the admitted non-anchor members, in discovery order. -/
structure IGroup where
  anchorIdx : Nat
  anchor : Post
  mems : List Member
deriving DecidableEq

/-- Positions of all members of a group (anchor first). -/
def igIndices (G : IGroup) : List Nat := G.anchorIdx :: G.mems.map Member.idx

/-- The serialised group metadata dictionary (lines 864-873). -/
structure Group where
  group_id : Nat
  size : Nat
  time_span : Int
  unique_authors : Nat
  shared_links_count : Nat
  shared_hashtags_count : Nat
  posts : List PostEntry
deriving DecidableEq

/-- One node of the author network (lines 914-921). -/
structure NodeInfo where
  id : String
  posts_count : Nat
  coordinated_groups_count : Nat
deriving DecidableEq

/-- One aggregated undirected edge of the author network (lines 907-910). -/
structure Link where
  source : String
  target : String
  weight : Nat
deriving DecidableEq

/-- The `network_metrics` dictionary (lines 924-933). -/
structure Metrics where
  total_groups : Nat
  total_authors : Nat
  total_connections : Nat
  density : ℚ
  avg_group_size : ℚ
  authors_involved_percentage : ℚ
  time_window_seconds : Int
  similarity_threshold : ℚ
deriving DecidableEq

/-- The JSON body returned on success (line 935-939). -/
structure Response where
  nodes : List NodeInfo
  links : List Link
  groups : List Group
  metrics : Metrics
deriving DecidableEq

deriving instance DecidableEq for Except

/-- Observable outcome of one request: everything printed to the server
console, and either the response body or an uncaught Python exception. -/
structure RunResult where
  printed : List String
  response : Except String Response
deriving DecidableEq

/-! ### Step 1: filtering and sorting -/

/-- Stable insertion into a list sorted by `created_utc`. -/
def insertSorted (p : Post) : List Post → List Post
  | [] => [p]
  | q :: t => if p.created_utc ≤ q.created_utc then p :: q :: t else q :: insertSorted p t

/-- Stable sort by `created_utc` ascending (`sort_values('created_utc')`,
line 773; ties keep their original relative order). -/
def sortByTime : List Post → List Post
  | [] => []
  | p :: t => insertSorted p (sortByTime t)

/-- The query filter (lines 766-770): case-insensitive match against
`selftext` or `title`; an empty query keeps the whole corpus. -/
def filterByQuery (corpus : List Post) (query : String) : List Post :=
  if query = "" then corpus
  else corpus.filter fun p => containsCI p.selftext query || containsCI p.title query

/-! ### Step 2: similarity boosts and the greedy window scan -/

/-- Shared-link check (lines 840-842): both posts contain URLs and the URL
sets intersect. -/
def sharedLinksB (p q : Post) : Bool :=
  decide (p.urls ≠ [] ∧ q.urls ≠ [] ∧ p.urls.inter q.urls ≠ [])

/-- Shared-hashtag check (lines 844-846). -/
def sharedHashtagsB (p q : Post) : Bool :=
  decide (p.hashtags ≠ [] ∧ q.hashtags ≠ [] ∧ p.hashtags.inter q.hashtags ≠ [])

/-- Boosted similarity of positions `i`, `j` holding posts `p`, `q`:
cosine similarity plus `+0.1` for shared links and `+0.1` for shared
hashtags (lines 824-846).  The threshold comparison uses this value. -/
def boostedScore (sim : Nat → Nat → ℚ) (i j : Nat) (p q : Post) : ℚ :=
  qadd (qadd (sim i j) (if sharedLinksB p q then mkRat 1 10 else mkRat 0 1))
    (if sharedHashtagsB p q then mkRat 1 10 else mkRat 0 1)

/-- Window membership filter (lines 811-813): posts whose timestamp lies
in `[anchor, anchor + time_window]`, in sorted order. -/
def windowPred (p : Post) (w : Int) (jq : Nat × Post) : Bool :=
  decide (jq.2.created_utc ≤ p.created_utc + w) && decide (p.created_utc ≤ jq.2.created_utc)

/-- The inner candidate loop of one anchor (lines 818-860): skip the anchor
itself and already-claimed posts, admit a candidate when its boosted
similarity reaches the threshold, claiming it immediately.  Returns the
admitted members in scan order and the updated claimed set. -/
def scanWindow (sim : Nat → Nat → ℚ) (θ : ℚ) (i : Nat) (p : Post) :
    List (Nat × Post) → List Nat → List Member × List Nat
  | [], processed => ([], processed)
  | jq :: rest, processed =>
    if jq.1 = i ∨ jq.1 ∈ processed then scanWindow sim θ i p rest processed
    else
      let s := boostedScore sim i jq.1 p jq.2
      if θ ≤ s then
        let r := scanWindow sim θ i p rest (jq.1 :: processed)
        (⟨jq.1, jq.2, sharedLinksB p jq.2, sharedHashtagsB p jq.2, s⟩ :: r.1, r.2)
      else scanWindow sim θ i p rest processed

/-- The outer anchor loop (lines 797-875) over the time-sorted, indexed
post list `all`.  Returns the emitted groups, the final claimed set, and
the anchors that were visited unclaimed but failed to form a group of at
least two members. -/
def anchorPass (sim : Nat → Nat → ℚ) (θ : ℚ) (w : Int) (all : List (Nat × Post)) :
    List (Nat × Post) → List Nat → List IGroup × List Nat × List (Nat × Post)
  | [], processed => ([], processed, [])
  | ip :: rest, processed =>
    if ip.1 ∈ processed then anchorPass sim θ w all rest processed
    else
      let s := scanWindow sim θ ip.1 ip.2 (all.filter (windowPred ip.2 w)) processed
      if s.1.isEmpty then
        let r := anchorPass sim θ w all rest s.2
        (r.1, r.2.1, ip :: r.2.2)
      else
        let r := anchorPass sim θ w all rest (ip.1 :: s.2)
        (⟨ip.1, ip.2, s.1⟩ :: r.1, r.2.1, r.2.2)

/-- The whole clustering pass over an (already filtered) corpus: sort by
time, index by sorted position (matching the rows of the TF-IDF matrix),
run the greedy anchor loop with an empty claimed set. -/
def clusterRun (sim : Nat → Nat → ℚ) (posts : List Post) (θ : ℚ) (w : Int) :
    List IGroup × List Nat × List (Nat × Post) :=
  anchorPass sim θ w (sortByTime posts).enum (sortByTime posts).enum []

/-- The emitted coordination groups of one clustering pass. -/
def clusterGroups (sim : Nat → Nat → ℚ) (posts : List Post) (θ : ℚ) (w : Int) :
    List IGroup :=
  (clusterRun sim posts θ w).1

/-- The anchors that were visited unclaimed and failed to form a group. -/
def failedAnchors (sim : Nat → Nat → ℚ) (posts : List Post) (θ : ℚ) (w : Int) :
    List (Nat × Post) :=
  (clusterRun sim posts θ w).2.2

/-! ### Serialisation of groups -/

/-- Text preview truncation (lines 806, 854): texts longer than 200
characters are cut to 200 characters plus an ellipsis. -/
def truncPreview (s : String) : String :=
  if 200 < s.length then s.take 200 ++ "..." else s

/-- The anchor's serialised dictionary (lines 801-808): no
`similarity_score`, `shared_links` or `shared_hashtags` keys. -/
def anchorEntry (p : Post) : PostEntry :=
  { author := p.author, id := p.id, created_utc := p.created_utc, title := p.title,
    selftext := truncPreview p.selftext, url := "https://reddit.com/" ++ p.permalink }

/-- A matched member's serialised dictionary (lines 849-859): carries the
similarity score rounded to 3 decimals and both shared flags. -/
def memberEntry (m : Member) : PostEntry :=
  { author := m.post.author, id := m.post.id, created_utc := m.post.created_utc,
    title := m.post.title, selftext := truncPreview m.post.selftext,
    url := "https://reddit.com/" ++ m.post.permalink,
    similarity_score := some (round3 m.score),
    shared_links := some m.sharedLinks, shared_hashtags := some m.sharedHashtags }

/-- Maximum of a list of integers with seed `x`. -/
def listMaxI (x : Int) (l : List Int) : Int := l.foldl max x

/-- Minimum of a list of integers with seed `x`. -/
def listMinI (x : Int) (l : List Int) : Int := l.foldl min x

/-- The group metadata dictionary (lines 864-873). -/
def mkGroup (gid : Nat) (G : IGroup) : Group :=
  let entries := anchorEntry G.anchor :: G.mems.map memberEntry
  let times := entries.map PostEntry.created_utc
  { group_id := gid, size := entries.length,
    time_span := listMaxI G.anchor.created_utc times - listMinI G.anchor.created_utc times,
    unique_authors := (entries.map PostEntry.author).dedup.length,
    shared_links_count := entries.countP fun e => e.shared_links.getD false,
    shared_hashtags_count := entries.countP fun e => e.shared_hashtags.getD false,
    posts := entries }

/-- Serialise the emitted groups; `group_id` is the emission index. -/
def mkGroups (igs : List IGroup) : List Group :=
  igs.enum.map fun kG => mkGroup kG.1 kG.2

/-! ### Step 3: the author network -/

/-- Authors of a serialised group's members, in member order and with
multiplicity (line 886). -/
def groupAuthors (g : Group) : List String := g.posts.map PostEntry.author

/-- Ordered position pairs `(i, j)`, `i < j`, with distinct authors
(lines 889-898), in the source's emission order. -/
def pairLinks : List String → List (String × String)
  | [] => []
  | a :: rest => ((rest.filter fun b => a != b).map fun b => (a, b)) ++ pairLinks rest

/-- All raw author links of all groups, in emission order (`author_links`). -/
def authorLinks (gs : List Group) : List (String × String) :=
  (gs.map fun g => pairLinks (groupAuthors g)).flatten

/-- String comparison by code points, as Python compares strings. -/
def strLeB (s t : String) : Bool :=
  let rec go : List Char → List Char → Bool
    | [], _ => true
    | _ :: _, [] => false
    | a :: as, b :: bs => if a = b then go as bs else decide (a.toNat ≤ b.toNat)
  go s.data t.data

/-- `tuple(sorted([source, target]))` (line 903). -/
def sortPair (st : String × String) : String × String :=
  if strLeB st.1 st.2 then st else (st.2, st.1)

/-- Add one occurrence of `key` to the ordered accumulator
(`link_weights[key] += 1`; Python dicts preserve first-insertion order). -/
def addWeight (key : String × String) :
    List ((String × String) × Nat) → List ((String × String) × Nat)
  | [] => [(key, 1)]
  | kx :: rest => if kx.1 = key then (kx.1, kx.2 + 1) :: rest else kx :: addWeight key rest

/-- Aggregated weights per unordered author pair (lines 901-904). -/
def linkWeights (ls : List (String × String)) : List ((String × String) × Nat) :=
  ls.foldl (fun acc st => addWeight (sortPair st) acc) []

/-- The final weighted links (lines 907-910). -/
def uniqueLinks (gs : List Group) : List Link :=
  (linkWeights (authorLinks gs)).map fun kx => ⟨kx.1.1, kx.1.2, kx.2⟩

/-- Insert a string into a list if absent (set semantics; Python `set`
iteration order is unspecified, membership is what matters). -/
def insertNew (a : String) (l : List String) : List String :=
  if a ∈ l then l else l ++ [a]

/-- `author_nodes`: the set of all authors of all groups' members
(lines 883-887). -/
def authorNodes (gs : List Group) : List String :=
  gs.foldl (fun acc g => (groupAuthors g).foldl (fun ac a => insertNew a ac) acc) []

/-- The node dictionaries (lines 913-921). -/
def mkNodes (filtered : List Post) (gs : List Group) (ans : List String) : List NodeInfo :=
  ans.map fun a =>
    { id := a, posts_count := filtered.countP fun p => decide (p.author = a),
      coordinated_groups_count := gs.countP fun g => decide (a ∈ groupAuthors g) }

/-! ### Steps 3-4: response assembly and the façade -/

/-- Distinct author count of the filtered corpus
(`filtered_data['author'].nunique()`). -/
def nuniqueAuthors (filtered : List Post) : Nat := (filtered.map Post.author).dedup.length

/-- Network construction plus metrics (lines 881-939).  The percentage at
line 930 divides by `nunique` of the filtered corpus: with an empty
filtered corpus this is Python `0 / 0`, an uncaught `ZeroDivisionError`. -/
def assemble (filtered : List Post) (groups : List Group) (printed : List String)
    (tw : Int) (θ : ℚ) : RunResult :=
  let unique_links := uniqueLinks groups
  let author_nodes := authorNodes groups
  let nodes := mkNodes filtered groups author_nodes
  let nA := author_nodes.length
  let nun := nuniqueAuthors filtered
  if nun = 0 then
    { printed := printed, response := .error "ZeroDivisionError: division by zero" }
  else
    { printed := printed,
      response := .ok
        { nodes := nodes, links := unique_links, groups := groups,
          metrics :=
            { total_groups := groups.length,
              total_authors := nA,
              total_connections := unique_links.length,
              density :=
                if 1 < nA then mkRat (2 * unique_links.length) (nA * (nA - 1))
                else mkRat 0 1,
              avg_group_size :=
                if groups.isEmpty then mkRat 0 1
                else mkRat (Int.ofNat ((groups.map Group.size).foldl (· + ·) 0)) groups.length,
              authors_involved_percentage := qmul (mkRat (Int.ofNat nA) nun) (mkRat 100 1),
              time_window_seconds := tw,
              similarity_threshold := θ } } }

/-- The query façade `get_coordinated_behavior` (lines 755-939), given a
loaded corpus.  `vectorize` is the external TF-IDF stage applied to the
time-sorted filtered posts: either a pairwise cosine-similarity function
on sorted positions, or the error its `fit_transform` raises; the source
catches that error, prints a diagnostic and keeps zero groups. -/
def getCoordinatedBehavior (corpus : List Post) (query : String) (time_window : Int)
    (similarity_threshold : ℚ)
    (vectorize : List Post → Except String (Nat → Nat → ℚ)) : RunResult :=
  let filtered := filterByQuery corpus query
  match vectorize (sortByTime filtered) with
  | .error e =>
      assemble filtered [] ["Advanced coordination detection failed: " ++ e]
        time_window similarity_threshold
  | .ok sim =>
      assemble filtered
        (mkGroups (clusterGroups sim filtered similarity_threshold time_window)) []
        time_window similarity_threshold

/-- Sum of group sizes: the total number of (post, group) memberships. -/
def totalMemberships (igs : List IGroup) : Nat :=
  (igs.map fun G => (igIndices G).length).foldl (· + ·) 0

/-- Every string literal occurring anywhere in a response body. -/
def responseStrings (r : Response) : List String :=
  (r.nodes.map NodeInfo.id) ++ (r.links.map Link.source) ++ (r.links.map Link.target) ++
    ((r.groups.map fun g => g.posts.map (fun e => [e.author, e.id, e.title, e.selftext, e.url])).flatten.flatten)

/-- First-match lookup in the weight accumulator (0 when absent). -/
def assocFind (key : String × String) : List ((String × String) × Nat) → Nat
  | [] => 0
  | kx :: rest => if kx.1 = key then kx.2 else assocFind key rest

/-! ### Concrete inputs for counterexamples and witnesses -/

/-- A minimal post with no body, links or hashtags. -/
def samplePost (a : String) (t : Int) : Post := ⟨a, "", t, "breaking news", "", "", [], []⟩

/-- The pairwise cosine similarity TF-IDF yields on identical documents. -/
def simOne : Nat → Nat → ℚ := fun _ _ => mkRat 1 1

/-- A successful vectorisation outcome. -/
def vectOne : List Post → Except String (Nat → Nat → ℚ) := fun _ => .ok simOne

/-- The vectorizer's failure outcome on an empty/degenerate vocabulary. -/
def vectFail : List Post → Except String (Nat → Nat → ℚ) := fun _ =>
  .error "empty vocabulary; perhaps the documents only contain stop words"

/-- Groups of a run's response (empty when the run raised). -/
def respGroups (r : RunResult) : List Group :=
  match r.response with
  | .ok x => x.groups
  | .error _ => []

/-- Links of a run's response. -/
def respLinks (r : RunResult) : List Link :=
  match r.response with
  | .ok x => x.links
  | .error _ => []

/-- Nodes of a run's response. -/
def respNodes (r : RunResult) : List NodeInfo :=
  match r.response with
  | .ok x => x.nodes
  | .error _ => []

/-- Three identical posts, two by author a and one by author b. -/
def postsAAB : List Post := [samplePost "a" 0, samplePost "a" 5, samplePost "b" 10]

/-- The run on postsAAB with identical texts and default parameters. -/
def runAAB : RunResult := getCoordinatedBehavior postsAAB "" 3600 (mkRat 7 10) vectOne

/-- Two identical posts by the same author. -/
def postsAA : List Post := [samplePost "a" 0, samplePost "a" 5]

/-- The run on postsAA. -/
def runAA : RunResult := getCoordinatedBehavior postsAA "" 3600 (mkRat 7 10) vectOne

/-- Two identical posts by distinct authors. -/
def postsAB : List Post := [samplePost "a" 0, samplePost "b" 5]

/-- A run whose vectorisation stage fails. -/
def runABfail : RunResult := getCoordinatedBehavior postsAB "" 3600 (mkRat 7 10) vectFail

/-- The console diagnostic of runABfail. -/
def failMsg : String :=
  "Advanced coordination detection failed: empty vocabulary; perhaps the documents only contain stop words"

/-- A run with a negative time window. -/
def runNegWindow : RunResult := getCoordinatedBehavior postsAB "" (-5) (mkRat 7 10) vectOne

/-- A symmetric similarity matrix witnessing non-monotonicity of the
threshold: the first post is mildly similar to everything, the second is
strongly similar to the rest, the rest barely similar to each other. -/
def simC4 : Nat → Nat → ℚ := fun i j =>
  if i = 0 ∨ j = 0 then mkRat 1 2
  else if i = 1 ∨ j = 1 then mkRat 19 20
  else mkRat 3 10

/-- Five posts: three in the first window, two reachable only from the
second post's window. -/
def postsC4 : List Post :=
  [samplePost "a" 0, samplePost "b" 10, samplePost "c" 20,
   samplePost "d" 3605, samplePost "e" 3606]

/-- Three posts: two close together, one isolated far in the future. -/
def postsABC : List Post := [samplePost "a" 0, samplePost "b" 1, samplePost "c" 5000]

/-- The emitted group of the run on postsABC. -/
def groupABC : IGroup :=
  ⟨0, samplePost "a" 0, [⟨1, samplePost "b" 1, false, false, mkRat 1 1⟩]⟩

/-- The emitted group of the run on postsAA. -/
def groupAA : IGroup :=
  ⟨0, samplePost "a" 0, [⟨1, samplePost "a" 5, false, false, mkRat 1 1⟩]⟩

/-- The emitted group of the run on postsAAB. -/
def groupAAB : IGroup :=
  ⟨0, samplePost "a" 0,
    [⟨1, samplePost "a" 5, false, false, mkRat 1 1⟩,
     ⟨2, samplePost "b" 10, false, false, mkRat 1 1⟩]⟩

/-! ### Invariants of the embedded pipeline, and the claims -/

theorem scanWindow_nil (sim : Nat → Nat → ℚ) (θ : ℚ) (i : Nat) (p : Post)
    (processed : List Nat) : scanWindow sim θ i p [] processed = ([], processed) := rfl

theorem scanWindow_cons (sim : Nat → Nat → ℚ) (θ : ℚ) (i : Nat) (p : Post)
    (jq : Nat × Post) (rest : List (Nat × Post)) (processed : List Nat) :
    scanWindow sim θ i p (jq :: rest) processed =
      if jq.1 = i ∨ jq.1 ∈ processed then scanWindow sim θ i p rest processed
      else if θ ≤ boostedScore sim i jq.1 p jq.2 then
        (⟨jq.1, jq.2, sharedLinksB p jq.2, sharedHashtagsB p jq.2,
            boostedScore sim i jq.1 p jq.2⟩ ::
          (scanWindow sim θ i p rest (jq.1 :: processed)).1,
          (scanWindow sim θ i p rest (jq.1 :: processed)).2)
      else scanWindow sim θ i p rest processed := by
  simp only [scanWindow]

theorem scanWindow_mem_snd (sim : Nat → Nat → ℚ) (θ : ℚ) (i : Nat) (p : Post) :
    ∀ (cs : List (Nat × Post)) (processed : List Nat) (x : Nat),
      x ∈ (scanWindow sim θ i p cs processed).2 ↔
        x ∈ processed ∨ x ∈ (scanWindow sim θ i p cs processed).1.map Member.idx := by
  intro cs
  induction cs with
  | nil => intro processed x; simp [scanWindow_nil]
  | cons jq rest ih =>
    intro processed x
    rw [scanWindow_cons]
    by_cases h1 : jq.1 = i ∨ jq.1 ∈ processed
    · rw [if_pos h1]; simpa using ih processed x
    · rw [if_neg h1]
      by_cases h2 : θ ≤ boostedScore sim i jq.1 p jq.2
      · rw [if_pos h2]
        simp only [List.map_cons, List.mem_cons]
        rw [ih (jq.1 :: processed) x]
        simp only [List.mem_cons]
        tauto
      · rw [if_neg h2]; simpa using ih processed x

theorem scanWindow_subset_snd (sim : Nat → Nat → ℚ) (θ : ℚ) (i : Nat) (p : Post)
    (cs : List (Nat × Post)) (processed : List Nat) (x : Nat) (hx : x ∈ processed) :
    x ∈ (scanWindow sim θ i p cs processed).2 :=
  (scanWindow_mem_snd sim θ i p cs processed x).mpr (Or.inl hx)

theorem scanWindow_mems (sim : Nat → Nat → ℚ) (θ : ℚ) (i : Nat) (p : Post) :
    ∀ (cs : List (Nat × Post)) (processed : List Nat),
      ∀ m ∈ (scanWindow sim θ i p cs processed).1,
        m.idx ∉ processed ∧ m.idx ≠ i ∧ (m.idx, m.post) ∈ cs ∧
        m.score = boostedScore sim i m.idx p m.post ∧ θ ≤ m.score ∧
        m.sharedLinks = sharedLinksB p m.post ∧
        m.sharedHashtags = sharedHashtagsB p m.post := by
  intro cs
  induction cs with
  | nil => intro processed m hm; rw [scanWindow_nil] at hm; simp at hm
  | cons jq rest ih =>
    intro processed m hm
    rw [scanWindow_cons] at hm
    by_cases h1 : jq.1 = i ∨ jq.1 ∈ processed
    · rw [if_pos h1] at hm
      obtain ⟨a, b, c, d, e, f, g⟩ := ih processed m hm
      exact ⟨a, b, List.mem_cons_of_mem _ c, d, e, f, g⟩
    · rw [if_neg h1] at hm
      push_neg at h1
      by_cases h2 : θ ≤ boostedScore sim i jq.1 p jq.2
      · rw [if_pos h2] at hm
        rcases List.mem_cons.mp hm with h | h
        · subst h
          exact ⟨h1.2, h1.1, by simp, rfl, h2, rfl, rfl⟩
        · obtain ⟨a, b, c, d, e, f, g⟩ := ih (jq.1 :: processed) m h
          exact ⟨fun hx => a (List.mem_cons_of_mem _ hx), b,
            List.mem_cons_of_mem _ c, d, e, f, g⟩
      · rw [if_neg h2] at hm
        obtain ⟨a, b, c, d, e, f, g⟩ := ih processed m hm
        exact ⟨a, b, List.mem_cons_of_mem _ c, d, e, f, g⟩

theorem scanWindow_idx_nodup (sim : Nat → Nat → ℚ) (θ : ℚ) (i : Nat) (p : Post) :
    ∀ (cs : List (Nat × Post)) (processed : List Nat),
      ((scanWindow sim θ i p cs processed).1.map Member.idx).Nodup := by
  intro cs
  induction cs with
  | nil => intro processed; rw [scanWindow_nil]; simp
  | cons jq rest ih =>
    intro processed
    rw [scanWindow_cons]
    by_cases h1 : jq.1 = i ∨ jq.1 ∈ processed
    · rw [if_pos h1]; exact ih processed
    · rw [if_neg h1]
      by_cases h2 : θ ≤ boostedScore sim i jq.1 p jq.2
      · rw [if_pos h2]
        simp only [List.map_cons, List.nodup_cons]
        refine ⟨fun hmem => ?_, ih (jq.1 :: processed)⟩
        rcases List.mem_map.mp hmem with ⟨m, hm, hidx⟩
        have := (scanWindow_mems sim θ i p rest (jq.1 :: processed) m hm).1
        exact this (hidx ▸ List.mem_cons_self _ _)
      · rw [if_neg h2]; exact ih processed

theorem scanWindow_empty_snd (sim : Nat → Nat → ℚ) (θ : ℚ) (i : Nat) (p : Post) :
    ∀ (cs : List (Nat × Post)) (processed : List Nat),
      (scanWindow sim θ i p cs processed).1 = [] →
      (scanWindow sim θ i p cs processed).2 = processed := by
  intro cs
  induction cs with
  | nil => intro processed _; rw [scanWindow_nil]
  | cons jq rest ih =>
    intro processed h
    rw [scanWindow_cons] at h ⊢
    by_cases h1 : jq.1 = i ∨ jq.1 ∈ processed
    · rw [if_pos h1] at h ⊢; exact ih processed h
    · rw [if_neg h1] at h ⊢
      by_cases h2 : θ ≤ boostedScore sim i jq.1 p jq.2
      · rw [if_pos h2] at h; simp at h
      · rw [if_neg h2] at h ⊢; exact ih processed h

theorem scanWindow_empty_reject (sim : Nat → Nat → ℚ) (θ : ℚ) (i : Nat) (p : Post) :
    ∀ (cs : List (Nat × Post)) (processed : List Nat),
      (scanWindow sim θ i p cs processed).1 = [] →
      ∀ jq ∈ cs, jq.1 ∉ processed → jq.1 ≠ i →
        ¬ θ ≤ boostedScore sim i jq.1 p jq.2 := by
  intro cs
  induction cs with
  | nil => intro processed _ jq hjq; simp at hjq
  | cons kq rest ih =>
    intro processed h jq hjq hnp hni
    rw [scanWindow_cons] at h
    by_cases h1 : kq.1 = i ∨ kq.1 ∈ processed
    · rw [if_pos h1] at h
      rcases List.mem_cons.mp hjq with he | hr
      · subst he; rcases h1 with h1 | h1
        · exact absurd h1 hni
        · exact absurd h1 hnp
      · exact ih processed h jq hr hnp hni
    · rw [if_neg h1] at h
      by_cases h2 : θ ≤ boostedScore sim i kq.1 p kq.2
      · rw [if_pos h2] at h; simp at h
      · rw [if_neg h2] at h
        rcases List.mem_cons.mp hjq with he | hr
        · subst he; exact h2
        · exact ih processed h jq hr hnp hni

theorem scanWindow_reject_not_mem (sim : Nat → Nat → ℚ) (θ : ℚ) (i : Nat) (p : Post) :
    ∀ (cs : List (Nat × Post)) (processed : List Nat) (j : Nat),
      (∀ q : Post, (j, q) ∈ cs → ¬ θ ≤ boostedScore sim i j p q) →
      j ∉ (scanWindow sim θ i p cs processed).1.map Member.idx := by
  intro cs processed j hrej hmem
  rcases List.mem_map.mp hmem with ⟨m, hm, hidx⟩
  obtain ⟨_, _, hc, hs, hθ, _, _⟩ := scanWindow_mems sim θ i p cs processed m hm
  subst hidx
  exact hrej m.post hc (hs ▸ hθ)

theorem anchorPass_nil (sim : Nat → Nat → ℚ) (θ : ℚ) (w : Int) (all : List (Nat × Post))
    (processed : List Nat) : anchorPass sim θ w all [] processed = ([], processed, []) := rfl

theorem anchorPass_cons (sim : Nat → Nat → ℚ) (θ : ℚ) (w : Int) (all : List (Nat × Post))
    (ip : Nat × Post) (rest : List (Nat × Post)) (processed : List Nat) :
    anchorPass sim θ w all (ip :: rest) processed =
      if ip.1 ∈ processed then anchorPass sim θ w all rest processed
      else if (scanWindow sim θ ip.1 ip.2 (all.filter (windowPred ip.2 w)) processed).1.isEmpty then
        ((anchorPass sim θ w all rest
            (scanWindow sim θ ip.1 ip.2 (all.filter (windowPred ip.2 w)) processed).2).1,
         (anchorPass sim θ w all rest
            (scanWindow sim θ ip.1 ip.2 (all.filter (windowPred ip.2 w)) processed).2).2.1,
         ip :: (anchorPass sim θ w all rest
            (scanWindow sim θ ip.1 ip.2 (all.filter (windowPred ip.2 w)) processed).2).2.2)
      else
        (⟨ip.1, ip.2,
            (scanWindow sim θ ip.1 ip.2 (all.filter (windowPred ip.2 w)) processed).1⟩ ::
          (anchorPass sim θ w all rest
            (ip.1 :: (scanWindow sim θ ip.1 ip.2 (all.filter (windowPred ip.2 w)) processed).2)).1,
         (anchorPass sim θ w all rest
            (ip.1 :: (scanWindow sim θ ip.1 ip.2 (all.filter (windowPred ip.2 w)) processed).2)).2.1,
         (anchorPass sim θ w all rest
            (ip.1 :: (scanWindow sim θ ip.1 ip.2 (all.filter (windowPred ip.2 w)) processed).2)).2.2) := by
  simp only [anchorPass]

theorem anchorPass_groups_exists (sim : Nat → Nat → ℚ) (θ : ℚ) (w : Int)
    (all : List (Nat × Post)) :
    ∀ (rest : List (Nat × Post)) (processed : List Nat),
      ∀ G ∈ (anchorPass sim θ w all rest processed).1,
        (G.anchorIdx, G.anchor) ∈ rest ∧
        ∃ pr : List Nat, G.anchorIdx ∉ pr ∧
          G.mems = (scanWindow sim θ G.anchorIdx G.anchor
              (all.filter (windowPred G.anchor w)) pr).1 ∧
          G.mems ≠ [] := by
  intro rest
  induction rest with
  | nil => intro processed G hG; rw [anchorPass_nil] at hG; simp at hG
  | cons ip rest ih =>
    intro processed G hG
    rw [anchorPass_cons] at hG
    by_cases h1 : ip.1 ∈ processed
    · rw [if_pos h1] at hG
      obtain ⟨ha, hb⟩ := ih processed G hG
      exact ⟨List.mem_cons_of_mem _ ha, hb⟩
    · rw [if_neg h1] at hG
      by_cases h2 : (scanWindow sim θ ip.1 ip.2 (all.filter (windowPred ip.2 w)) processed).1.isEmpty
      · rw [if_pos h2] at hG
        obtain ⟨ha, hb⟩ := ih _ G hG
        exact ⟨List.mem_cons_of_mem _ ha, hb⟩
      · rw [if_neg h2] at hG
        rcases List.mem_cons.mp hG with he | hr
        · subst he
          refine ⟨by simp, processed, h1, rfl, ?_⟩
          intro hemp
          exact h2 (List.isEmpty_iff.mpr hemp)
        · obtain ⟨ha, hb⟩ := ih _ G hr
          exact ⟨List.mem_cons_of_mem _ ha, hb⟩

theorem anchorPass_frame (sim : Nat → Nat → ℚ) (θ : ℚ) (w : Int) (all : List (Nat × Post)) :
    ∀ (rest : List (Nat × Post)) (processed : List Nat),
      (∀ x ∈ processed, x ∈ (anchorPass sim θ w all rest processed).2.1) ∧
      ∀ G ∈ (anchorPass sim θ w all rest processed).1, ∀ x ∈ igIndices G,
        x ∉ processed ∧ x ∈ (anchorPass sim θ w all rest processed).2.1 := by
  intro rest
  induction rest with
  | nil =>
    intro processed
    rw [anchorPass_nil]
    exact ⟨fun x hx => hx, fun G hG => by simp at hG⟩
  | cons ip rest ih =>
    intro processed
    rw [anchorPass_cons]
    by_cases h1 : ip.1 ∈ processed
    · rw [if_pos h1]; exact ih processed
    · rw [if_neg h1]
      by_cases h2 : (scanWindow sim θ ip.1 ip.2 (all.filter (windowPred ip.2 w)) processed).1.isEmpty
      · rw [if_pos h2]
        have hemp : (scanWindow sim θ ip.1 ip.2 (all.filter (windowPred ip.2 w)) processed).1 = [] :=
          List.isEmpty_iff.mp h2
        have hsnd := scanWindow_empty_snd sim θ ip.1 ip.2 (all.filter (windowPred ip.2 w)) processed hemp
        rw [hsnd]
        exact ih processed
      · rw [if_neg h2]
        set s := scanWindow sim θ ip.1 ip.2 (all.filter (windowPred ip.2 w)) processed with hs
        have hsub : ∀ x ∈ processed, x ∈ ip.1 :: s.2 := fun x hx =>
          List.mem_cons_of_mem _ (scanWindow_subset_snd sim θ ip.1 ip.2 _ processed x hx)
        obtain ⟨ihsub, ihgrp⟩ := ih (ip.1 :: s.2)
        refine ⟨fun x hx => ihsub x (hsub x hx), ?_⟩
        intro G hG x hx
        rcases List.mem_cons.mp hG with he | hr
        · subst he
          rcases List.mem_cons.mp hx with hxa | hxm
          · subst hxa
            exact ⟨h1, ihsub _ (List.mem_cons_self _ _)⟩
          · rcases List.mem_map.mp hxm with ⟨m, hm, hidx⟩
            have hprops := scanWindow_mems sim θ ip.1 ip.2 _ processed m hm
            refine ⟨hidx ▸ hprops.1, ?_⟩
            have : x ∈ s.2 := by
              rw [scanWindow_mem_snd]
              exact Or.inr (hidx ▸ List.mem_map_of_mem _ hm)
            exact ihsub x (List.mem_cons_of_mem _ this)
        · obtain ⟨hnp, hfin⟩ := ihgrp G hr x hx
          refine ⟨fun hxp => hnp (hsub x hxp), hfin⟩

theorem anchorPass_countP (sim : Nat → Nat → ℚ) (θ : ℚ) (w : Int) (all : List (Nat × Post)) :
    ∀ (rest : List (Nat × Post)) (processed : List Nat) (j : Nat),
      ((anchorPass sim θ w all rest processed).1.countP
        fun G => decide (j ∈ igIndices G)) ≤ 1 := by
  intro rest
  induction rest with
  | nil => intro processed j; rw [anchorPass_nil]; simp
  | cons ip rest ih =>
    intro processed j
    rw [anchorPass_cons]
    by_cases h1 : ip.1 ∈ processed
    · rw [if_pos h1]; exact ih processed j
    · rw [if_neg h1]
      by_cases h2 : (scanWindow sim θ ip.1 ip.2 (all.filter (windowPred ip.2 w)) processed).1.isEmpty
      · rw [if_pos h2]; exact ih _ j
      · rw [if_neg h2]
        set s := scanWindow sim θ ip.1 ip.2 (all.filter (windowPred ip.2 w)) processed with hs
        set G0 : IGroup := ⟨ip.1, ip.2, s.1⟩ with hG0
        by_cases hj : j ∈ igIndices G0
        · have hj2 : j ∈ ip.1 :: s.2 := by
            rcases List.mem_cons.mp hj with he | hm
            · exact he ▸ List.mem_cons_self _ _
            · refine List.mem_cons_of_mem _ ?_
              rw [scanWindow_mem_snd]
              exact Or.inr hm
          have hzero : ((anchorPass sim θ w all rest (ip.1 :: s.2)).1.countP
              fun G => decide (j ∈ igIndices G)) = 0 := by
            rw [List.countP_eq_zero]
            intro G hG
            have hfr := ((anchorPass_frame sim θ w all rest (ip.1 :: s.2)).2 G hG j)
            simp only [decide_eq_true_eq]
            intro hjG
            exact (hfr hjG).1 hj2
          rw [List.countP_cons, hzero]
          simp [hj]
        · rw [List.countP_cons]
          simpa [hj] using ih (ip.1 :: s.2) j

theorem anchorPass_group_nodup (sim : Nat → Nat → ℚ) (θ : ℚ) (w : Int)
    (all : List (Nat × Post)) (rest : List (Nat × Post)) (processed : List Nat) :
    ∀ G ∈ (anchorPass sim θ w all rest processed).1, (igIndices G).Nodup := by
  intro G hG
  obtain ⟨-, pr, hnp, hmems, -⟩ := anchorPass_groups_exists sim θ w all rest processed G hG
  rw [igIndices, List.nodup_cons]
  constructor
  · intro hmem
    rcases List.mem_map.mp hmem with ⟨m, hm, hidx⟩
    have := (scanWindow_mems sim θ G.anchorIdx G.anchor _ pr m (hmems ▸ hm)).2.1
    exact this hidx
  · rw [hmems]
    exact scanWindow_idx_nodup sim θ G.anchorIdx G.anchor _ pr

theorem insertSorted_mem (p : Post) :
    ∀ (l : List Post) (x : Post), x ∈ insertSorted p l ↔ x = p ∨ x ∈ l := by
  intro l
  induction l with
  | nil => intro x; simp [insertSorted]
  | cons q t ih =>
    intro x
    rw [insertSorted]
    by_cases h : p.created_utc ≤ q.created_utc
    · rw [if_pos h]; simp
    · rw [if_neg h]
      simp only [List.mem_cons, ih]
      tauto

theorem insertSorted_pairwise (p : Post) :
    ∀ l : List Post, (l.Pairwise fun a b => a.created_utc ≤ b.created_utc) →
      (insertSorted p l).Pairwise fun a b => a.created_utc ≤ b.created_utc := by
  intro l
  induction l with
  | nil => intro _; simp [insertSorted]
  | cons q t ih =>
    intro h
    rw [List.pairwise_cons] at h
    obtain ⟨hq, ht⟩ := h
    rw [insertSorted]
    by_cases hle : p.created_utc ≤ q.created_utc
    · rw [if_pos hle]
      rw [List.pairwise_cons]
      refine ⟨?_, List.pairwise_cons.mpr ⟨hq, ht⟩⟩
      intro x hx
      rcases List.mem_cons.mp hx with he | hm
      · exact he ▸ hle
      · exact le_trans hle (hq x hm)
    · rw [if_neg hle]
      rw [List.pairwise_cons]
      refine ⟨?_, ih ht⟩
      intro x hx
      rcases (insertSorted_mem p t x).mp hx with he | hm
      · exact he ▸ le_of_not_le hle
      · exact hq x hm

theorem sortByTime_pairwise :
    ∀ l : List Post, (sortByTime l).Pairwise fun a b => a.created_utc ≤ b.created_utc := by
  intro l
  induction l with
  | nil => simp [sortByTime]
  | cons p t ih => exact insertSorted_pairwise p (sortByTime t) ih

theorem enumFrom_fst_ge {α : Type} :
    ∀ (l : List α) (k : Nat), ∀ ip ∈ List.enumFrom k l, k ≤ ip.1 := by
  intro l
  induction l with
  | nil => intro k ip h; simp [List.enumFrom] at h
  | cons a t ih =>
    intro k ip h
    rw [List.enumFrom] at h
    rcases List.mem_cons.mp h with he | hm
    · subst he; exact le_refl _
    · exact le_trans (Nat.le_succ k) (ih (k + 1) ip hm)

theorem enumFrom_snd_mem {α : Type} :
    ∀ (l : List α) (k : Nat), ∀ ip ∈ List.enumFrom k l, ip.2 ∈ l := by
  intro l
  induction l with
  | nil => intro k ip h; simp [List.enumFrom] at h
  | cons a t ih =>
    intro k ip h
    rw [List.enumFrom] at h
    rcases List.mem_cons.mp h with he | hm
    · subst he; exact List.mem_cons_self _ _
    · exact List.mem_cons_of_mem _ (ih (k + 1) ip hm)

theorem enumFrom_pairwise :
    ∀ (l : List Post) (k : Nat),
      (l.Pairwise fun a b => a.created_utc ≤ b.created_utc) →
      (List.enumFrom k l).Pairwise fun a b => a.1 < b.1 ∧ a.2.created_utc ≤ b.2.created_utc := by
  intro l
  induction l with
  | nil => intro k _; simp [List.enumFrom]
  | cons p t ih =>
    intro k h
    rw [List.pairwise_cons] at h
    obtain ⟨hp, ht⟩ := h
    rw [List.enumFrom, List.pairwise_cons]
    refine ⟨?_, ih (k + 1) ht⟩
    intro ip hip
    refine ⟨lt_of_lt_of_le (Nat.lt_succ_self k) (enumFrom_fst_ge t (k + 1) ip hip), ?_⟩
    exact hp ip.2 (enumFrom_snd_mem t (k + 1) ip hip)

theorem pairwise_fst_inj {α : Type} :
    ∀ l : List (Nat × α), (l.Pairwise fun a b => a.1 < b.1) →
      ∀ a ∈ l, ∀ b ∈ l, a.1 = b.1 → a = b := by
  intro l
  induction l with
  | nil => intro _ a ha; simp at ha
  | cons x t ih =>
    intro h a ha b hb heq
    rw [List.pairwise_cons] at h
    obtain ⟨hx, ht⟩ := h
    rcases List.mem_cons.mp ha with hea | hma
    · rcases List.mem_cons.mp hb with heb | hmb
      · rw [hea, heb]
      · exact absurd (hea ▸ heq) (Nat.ne_of_lt (hx b hmb))
    · rcases List.mem_cons.mp hb with heb | hmb
      · exact absurd (heb ▸ heq) (Nat.ne_of_gt (hx a hma))
      · exact ih ht a hma b hmb heq

theorem mem_list_inter {α : Type} [DecidableEq α] (x : α) (a b : List α) :
    x ∈ a.inter b ↔ x ∈ a ∧ x ∈ b := List.mem_inter_iff

theorem inter_ne_nil_symm {α : Type} [DecidableEq α] (a b : List α) :
    a.inter b ≠ [] ↔ b.inter a ≠ [] := by
  simp only [ne_eq, List.eq_nil_iff_forall_not_mem, mem_list_inter]
  push_neg
  constructor
  · rintro ⟨x, hx1, hx2⟩; exact ⟨x, hx2, hx1⟩
  · rintro ⟨x, hx1, hx2⟩; exact ⟨x, hx2, hx1⟩

theorem sharedLinksB_symm (p q : Post) : sharedLinksB p q = sharedLinksB q p := by
  simp only [sharedLinksB]
  apply decide_eq_decide.mpr
  constructor
  · rintro ⟨h1, h2, h3⟩; exact ⟨h2, h1, (inter_ne_nil_symm _ _).mp h3⟩
  · rintro ⟨h1, h2, h3⟩; exact ⟨h2, h1, (inter_ne_nil_symm _ _).mp h3⟩

theorem sharedHashtagsB_symm (p q : Post) : sharedHashtagsB p q = sharedHashtagsB q p := by
  simp only [sharedHashtagsB]
  apply decide_eq_decide.mpr
  constructor
  · rintro ⟨h1, h2, h3⟩; exact ⟨h2, h1, (inter_ne_nil_symm _ _).mp h3⟩
  · rintro ⟨h1, h2, h3⟩; exact ⟨h2, h1, (inter_ne_nil_symm _ _).mp h3⟩

theorem boostedScore_symm (sim : Nat → Nat → ℚ) (i j : Nat) (p q : Post)
    (hsym : sim i j = sim j i) :
    boostedScore sim i j p q = boostedScore sim j i q p := by
  simp only [boostedScore, hsym, sharedLinksB_symm p q, sharedHashtagsB_symm p q]

/-- Key invariant for failed anchors: with a symmetric similarity function,
an anchor that was visited unclaimed and admitted nobody can never be
claimed afterwards, because any later anchor able to see it shares its
timestamp and was already rejected against it. -/
theorem anchorPass_fails_invariant (sim : Nat → Nat → ℚ) (θ : ℚ) (w : Int)
    (all : List (Nat × Post))
    (hsym : ∀ i j, sim i j = sim j i)
    (hinj : ∀ a ∈ all, ∀ b ∈ all, a.1 = b.1 → a = b) :
    ∀ (rest : List (Nat × Post)) (processed : List Nat) (F : List (Nat × Post)),
      rest.Sublist all →
      rest.Pairwise (fun a b => a.1 ≠ b.1 ∧ a.2.created_utc ≤ b.2.created_utc) →
      (∀ fp ∈ F, fp ∈ all ∧ fp.1 ∉ processed ∧
        ∀ jq ∈ rest, fp.1 ≠ jq.1 ∧
          (jq.1 ∉ processed → jq.2.created_utc ≤ fp.2.created_utc →
            fp.2.created_utc ≤ jq.2.created_utc + w →
            ¬ θ ≤ boostedScore sim jq.1 fp.1 jq.2 fp.2)) →
      (∀ fp ∈ F, fp.1 ∉ (anchorPass sim θ w all rest processed).2.1) ∧
      (∀ fp ∈ (anchorPass sim θ w all rest processed).2.2,
        fp.1 ∉ (anchorPass sim θ w all rest processed).2.1) := by
  intro rest
  induction rest with
  | nil =>
    intro processed F _ _ hF
    rw [anchorPass_nil]
    exact ⟨fun fp hfp => (hF fp hfp).2.1, fun fp hfp => by simp at hfp⟩
  | cons ip rest ih =>
    intro processed F hsub hpw hF
    rw [anchorPass_cons]
    have hsubR : rest.Sublist all := List.sublist_of_cons_sublist hsub
    have hpwR := List.Pairwise.of_cons hpw
    rw [List.pairwise_cons] at hpw
    obtain ⟨hiphead, -⟩ := hpw
    by_cases h1 : ip.1 ∈ processed
    · rw [if_pos h1]
      apply ih processed F hsubR hpwR
      intro fp hfp
      obtain ⟨hall, hnp, hrest⟩ := hF fp hfp
      exact ⟨hall, hnp, fun jq hjq => hrest jq (List.mem_cons_of_mem _ hjq)⟩
    · rw [if_neg h1]
      by_cases h2 : (scanWindow sim θ ip.1 ip.2 (all.filter (windowPred ip.2 w)) processed).1.isEmpty
      · rw [if_pos h2]
        have hemp : (scanWindow sim θ ip.1 ip.2 (all.filter (windowPred ip.2 w)) processed).1 = [] :=
          List.isEmpty_iff.mp h2
        have hsnd := scanWindow_empty_snd sim θ ip.1 ip.2
          (all.filter (windowPred ip.2 w)) processed hemp
        rw [hsnd]
        have hipall : ip ∈ all := hsub.subset (List.mem_cons_self _ _)
        have hF' : ∀ fp ∈ ip :: F, fp ∈ all ∧ fp.1 ∉ processed ∧
            ∀ jq ∈ rest, fp.1 ≠ jq.1 ∧
              (jq.1 ∉ processed → jq.2.created_utc ≤ fp.2.created_utc →
                fp.2.created_utc ≤ jq.2.created_utc + w →
                ¬ θ ≤ boostedScore sim jq.1 fp.1 jq.2 fp.2) := by
          intro fp hfp
          rcases List.mem_cons.mp hfp with he | hm
          · rw [he]
            refine ⟨hipall, h1, ?_⟩
            intro jq hjq
            obtain ⟨hne, hle⟩ := hiphead jq hjq
            refine ⟨hne, ?_⟩
            intro hjnp hle2 hle3
            have heq : jq.2.created_utc = ip.2.created_utc := le_antisymm hle2 hle
            have hjall : jq ∈ all := hsubR.subset hjq
            have hcand : jq ∈ all.filter (windowPred ip.2 w) := by
              rw [List.mem_filter]
              refine ⟨hjall, ?_⟩
              simp only [windowPred, Bool.and_eq_true, decide_eq_true_eq]
              omega
            have hrej := scanWindow_empty_reject sim θ ip.1 ip.2
              (all.filter (windowPred ip.2 w)) processed hemp jq hcand hjnp
              (fun hh => hne hh.symm)
            intro habs
            apply hrej
            rw [boostedScore_symm sim ip.1 jq.1 ip.2 jq.2 (hsym ip.1 jq.1)]
            exact habs
          · obtain ⟨hall, hnp, hrest⟩ := hF fp hm
            exact ⟨hall, hnp, fun jq hjq => hrest jq (List.mem_cons_of_mem _ hjq)⟩
        obtain ⟨hFc, hNc⟩ := ih processed (ip :: F) hsubR hpwR hF'
        refine ⟨fun fp hfp => hFc fp (List.mem_cons_of_mem _ hfp), ?_⟩
        intro fp hfp
        rcases List.mem_cons.mp hfp with he | hm
        · exact he ▸ hFc ip (List.mem_cons_self _ _)
        · exact hNc fp hm
      · rw [if_neg h2]
        set s := scanWindow sim θ ip.1 ip.2 (all.filter (windowPred ip.2 w)) processed with hs
        have hF' : ∀ fp ∈ F, fp ∈ all ∧ fp.1 ∉ ip.1 :: s.2 ∧
            ∀ jq ∈ rest, fp.1 ≠ jq.1 ∧
              (jq.1 ∉ ip.1 :: s.2 → jq.2.created_utc ≤ fp.2.created_utc →
                fp.2.created_utc ≤ jq.2.created_utc + w →
                ¬ θ ≤ boostedScore sim jq.1 fp.1 jq.2 fp.2) := by
          intro fp hfp
          obtain ⟨hall, hnp, hrest⟩ := hF fp hfp
          have hip := hrest ip (List.mem_cons_self _ _)
          have hnotmem : fp.1 ∉ s.1.map Member.idx := by
            intro hmem
            rcases List.mem_map.mp hmem with ⟨m, hm, hidx⟩
            obtain ⟨-, -, hc, hscore, hθm, -, -⟩ :=
              scanWindow_mems sim θ ip.1 ip.2 (all.filter (windowPred ip.2 w)) processed m hm
            have hmall : (m.idx, m.post) ∈ all := (List.mem_filter.mp hc).1
            have hpe : ((m.idx, m.post) : Nat × Post) = fp := by
              apply hinj (m.idx, m.post) hmall fp hall
              exact hidx
            have hpost : m.post = fp.2 := congrArg Prod.snd hpe
            have hwind := (List.mem_filter.mp hc).2
            simp only [windowPred, Bool.and_eq_true, decide_eq_true_eq] at hwind
            apply hip.2 h1 (hpost ▸ hwind.2) (hpost ▸ hwind.1)
            rw [hscore] at hθm
            rw [← hidx, ← hpost]
            exact hθm
          have hns2 : fp.1 ∉ s.2 := by
            rw [hs, scanWindow_mem_snd]
            rw [← hs]
            rintro (hc | hc)
            · exact hnp hc
            · exact hnotmem hc
          refine ⟨hall, ?_, ?_⟩
          · intro hc
            rcases List.mem_cons.mp hc with he | hm2
            · exact hip.1 he
            · exact hns2 hm2
          · intro jq hjq
            obtain ⟨hne, himp⟩ := hrest jq (List.mem_cons_of_mem _ hjq)
            refine ⟨hne, ?_⟩
            intro hjnp hle2 hle3
            apply himp ?_ hle2 hle3
            intro hc
            apply hjnp
            exact List.mem_cons_of_mem _ (scanWindow_subset_snd sim θ ip.1 ip.2
              (all.filter (windowPred ip.2 w)) processed jq.1 hc)
        obtain ⟨hFc, hNc⟩ := ih (ip.1 :: s.2) F hsubR hpwR hF'
        exact ⟨hFc, hNc⟩

theorem clusterGroups_partition (sim : Nat → Nat → ℚ) (posts : List Post) (θ : ℚ) (w : Int) :
    (∀ G ∈ clusterGroups sim posts θ w, 2 ≤ (igIndices G).length ∧ (igIndices G).Nodup) ∧
    ∀ j : Nat,
      ((clusterGroups sim posts θ w).countP fun G => decide (j ∈ igIndices G)) ≤ 1 := by
  constructor
  · intro G hG
    simp only [clusterGroups, clusterRun] at hG
    constructor
    · obtain ⟨-, pr, -, -, hne⟩ := anchorPass_groups_exists sim θ w
        (sortByTime posts).enum (sortByTime posts).enum [] G hG
      have : 0 < G.mems.length := List.length_pos.mpr hne
      simp only [igIndices, List.length_cons, List.length_map]
      omega
    · exact anchorPass_group_nodup sim θ w (sortByTime posts).enum
        (sortByTime posts).enum [] G hG
  · intro j
    simp only [clusterGroups, clusterRun]
    exact anchorPass_countP sim θ w (sortByTime posts).enum (sortByTime posts).enum [] j

theorem clusterGroups_window (sim : Nat → Nat → ℚ) (posts : List Post) (θ : ℚ) (w : Int) :
    ∀ G ∈ clusterGroups sim posts θ w, ∀ m ∈ G.mems,
      G.anchor.created_utc ≤ m.post.created_utc ∧
      m.post.created_utc ≤ G.anchor.created_utc + w := by
  intro G hG m hm
  simp only [clusterGroups, clusterRun] at hG
  obtain ⟨-, pr, -, hmems, -⟩ := anchorPass_groups_exists sim θ w
    (sortByTime posts).enum (sortByTime posts).enum [] G hG
  obtain ⟨-, -, hc, -, -, -, -⟩ := scanWindow_mems sim θ G.anchorIdx G.anchor
    ((sortByTime posts).enum.filter (windowPred G.anchor w)) pr m (hmems ▸ hm)
  have hw := (List.mem_filter.mp hc).2
  simp only [windowPred, Bool.and_eq_true, decide_eq_true_eq] at hw
  exact ⟨hw.2, hw.1⟩

theorem clusterGroups_scores (sim : Nat → Nat → ℚ) (posts : List Post) (θ : ℚ) (w : Int) :
    ∀ G ∈ clusterGroups sim posts θ w, ∀ m ∈ G.mems,
      m.score = boostedScore sim G.anchorIdx m.idx G.anchor m.post ∧ θ ≤ m.score := by
  intro G hG m hm
  simp only [clusterGroups, clusterRun] at hG
  obtain ⟨-, pr, -, hmems, -⟩ := anchorPass_groups_exists sim θ w
    (sortByTime posts).enum (sortByTime posts).enum [] G hG
  obtain ⟨-, -, -, hsc, hθm, -, -⟩ := scanWindow_mems sim θ G.anchorIdx G.anchor
    ((sortByTime posts).enum.filter (windowPred G.anchor w)) pr m (hmems ▸ hm)
  exact ⟨hsc, hθm⟩

theorem clusterRun_fails_unclaimed (sim : Nat → Nat → ℚ) (posts : List Post) (θ : ℚ)
    (w : Int) (hsym : ∀ i j : Nat, sim i j = sim j i) :
    ∀ fp ∈ failedAnchors sim posts θ w, ∀ G ∈ clusterGroups sim posts θ w,
      fp.1 ∉ igIndices G := by
  intro fp hfp G hG hmem
  simp only [failedAnchors, clusterRun] at hfp
  simp only [clusterGroups, clusterRun] at hG
  have hpwfull : (sortByTime posts).enum.Pairwise
      fun a b => a.1 < b.1 ∧ a.2.created_utc ≤ b.2.created_utc := by
    have h := enumFrom_pairwise (sortByTime posts) 0 (sortByTime_pairwise posts)
    simpa [List.enum] using h
  have hinj : ∀ a ∈ (sortByTime posts).enum, ∀ b ∈ (sortByTime posts).enum,
      a.1 = b.1 → a = b :=
    pairwise_fst_inj (sortByTime posts).enum (hpwfull.imp fun h => h.1)
  have hpw2 : (sortByTime posts).enum.Pairwise
      fun a b => a.1 ≠ b.1 ∧ a.2.created_utc ≤ b.2.created_utc :=
    hpwfull.imp fun h => ⟨Nat.ne_of_lt h.1, h.2⟩
  have hinv := anchorPass_fails_invariant sim θ w (sortByTime posts).enum hsym hinj
    (sortByTime posts).enum [] [] (List.Sublist.refl _) hpw2 (by intro fp h; simp at h)
  have hnot := hinv.2 fp hfp
  have hin := ((anchorPass_frame sim θ w (sortByTime posts).enum
    (sortByTime posts).enum []).2 G hG fp.1 hmem).2
  exact hnot hin

theorem assocFind_addWeight (key k : String × String) :
    ∀ acc : List ((String × String) × Nat),
      assocFind k (addWeight key acc) =
        if k = key then assocFind k acc + 1 else assocFind k acc := by
  intro acc
  induction acc with
  | nil =>
    by_cases h : k = key
    · simp [addWeight, assocFind, h]
    · simp [addWeight, assocFind, h, Ne.symm h]
  | cons kx rest ih =>
    by_cases h1 : kx.1 = key
    · by_cases h2 : kx.1 = k
      · have hkk : k = key := by rw [← h2, h1]
        simp [addWeight, assocFind, h1, h2, hkk]
      · have hkk : ¬ k = key := fun hh => h2 (by rw [h1, hh])
        have hk2 : ¬ key = k := fun hh => hkk (hh.symm)
        simp [addWeight, assocFind, h1, h2, hkk, hk2]
    · by_cases h2 : kx.1 = k
      · have hkk : ¬ k = key := fun hh => h1 (by rw [h2, hh])
        simp [addWeight, assocFind, h1, h2, hkk]
      · simp [addWeight, assocFind, h1, h2, ih]

theorem assocFind_foldl (k : String × String) :
    ∀ (ls : List (String × String)) (acc : List ((String × String) × Nat)),
      assocFind k (ls.foldl (fun a st => addWeight (sortPair st) a) acc) =
        assocFind k acc + ls.countP fun st => decide (sortPair st = k) := by
  intro ls
  induction ls with
  | nil => intro acc; simp
  | cons st ls ih =>
    intro acc
    rw [List.foldl_cons, ih, assocFind_addWeight, List.countP_cons]
    by_cases h : sortPair st = k
    · rw [if_pos h.symm]
      simp [h]
      omega
    · rw [if_neg (fun hh => h hh.symm)]
      simp [h]

theorem addWeight_keys (key : String × String) :
    ∀ acc kx, kx ∈ addWeight key acc → kx ∈ acc ∨ kx.1 = key := by
  intro acc
  induction acc with
  | nil =>
    intro kx h
    simp only [addWeight, List.mem_singleton] at h
    exact Or.inr (by rw [h])
  | cons ky rest ih =>
    intro kx h
    rw [addWeight] at h
    by_cases h1 : ky.1 = key
    · rw [if_pos h1] at h
      rcases List.mem_cons.mp h with he | hm
      · exact Or.inr (by rw [he]; exact h1)
      · exact Or.inl (List.mem_cons_of_mem _ hm)
    · rw [if_neg h1] at h
      rcases List.mem_cons.mp h with he | hm
      · exact Or.inl (he ▸ List.mem_cons_self _ _)
      · rcases ih kx hm with h2 | h2
        · exact Or.inl (List.mem_cons_of_mem _ h2)
        · exact Or.inr h2

theorem addWeight_keys_nodup (key : String × String) :
    ∀ acc : List ((String × String) × Nat), (acc.map Prod.fst).Nodup →
      ((addWeight key acc).map Prod.fst).Nodup := by
  intro acc
  induction acc with
  | nil => intro _; simp [addWeight]
  | cons kx rest ih =>
    intro h
    simp only [List.map_cons, List.nodup_cons] at h
    obtain ⟨hnx, hnd⟩ := h
    rw [addWeight]
    by_cases h1 : kx.1 = key
    · rw [if_pos h1]
      simp only [List.map_cons, List.nodup_cons]
      exact ⟨hnx, hnd⟩
    · rw [if_neg h1]
      simp only [List.map_cons, List.nodup_cons]
      refine ⟨?_, ih hnd⟩
      intro hmem
      rcases List.mem_map.mp hmem with ⟨ky, hky, hfst⟩
      rcases addWeight_keys key rest ky hky with h2 | h2
      · exact hnx (hfst ▸ List.mem_map_of_mem _ h2)
      · exact h1 (hfst ▸ h2)

theorem linkWeights_keys_nodup (ls : List (String × String)) :
    ((linkWeights ls).map Prod.fst).Nodup := by
  rw [linkWeights]
  suffices h : ∀ (ls : List (String × String)) (acc : List ((String × String) × Nat)),
      (acc.map Prod.fst).Nodup →
      ((ls.foldl (fun a st => addWeight (sortPair st) a) acc).map Prod.fst).Nodup by
    exact h ls [] (by simp)
  intro ls
  induction ls with
  | nil => intro acc h; simpa using h
  | cons st ls ih =>
    intro acc h
    rw [List.foldl_cons]
    exact ih _ (addWeight_keys_nodup (sortPair st) acc h)

theorem assocFind_of_mem (k : String × String) (x : Nat) :
    ∀ acc : List ((String × String) × Nat), (acc.map Prod.fst).Nodup →
      (k, x) ∈ acc → assocFind k acc = x := by
  intro acc
  induction acc with
  | nil => intro _ h; simp at h
  | cons kx rest ih =>
    intro hnd h
    simp only [List.map_cons, List.nodup_cons] at hnd
    obtain ⟨hnx, hnd2⟩ := hnd
    rcases List.mem_cons.mp h with he | hm
    · rw [← he]
      simp [assocFind]
    · have hne : kx.1 ≠ k := by
        intro hh
        exact hnx (hh ▸ List.mem_map_of_mem Prod.fst hm)
      simp only [assocFind, if_neg hne]
      exact ih hnd2 hm

theorem linkWeights_mem_src (ls : List (String × String)) :
    ∀ kx ∈ linkWeights ls, ∃ st ∈ ls, sortPair st = kx.1 := by
  rw [linkWeights]
  suffices h : ∀ (ls : List (String × String)) (acc : List ((String × String) × Nat)),
      ∀ kx ∈ ls.foldl (fun a st => addWeight (sortPair st) a) acc,
        kx ∈ acc ∨ ∃ st ∈ ls, sortPair st = kx.1 by
    intro kx hkx
    rcases h ls [] kx hkx with hc | hc
    · simp at hc
    · exact hc
  intro ls
  induction ls with
  | nil => intro acc kx h; exact Or.inl h
  | cons st ls ih =>
    intro acc kx h
    rw [List.foldl_cons] at h
    rcases ih _ kx h with hc | hc
    · rcases addWeight_keys (sortPair st) acc kx hc with h2 | h2
      · exact Or.inl h2
      · exact Or.inr ⟨st, List.mem_cons_self _ _, h2.symm⟩
    · obtain ⟨st2, hst2, hp⟩ := hc
      exact Or.inr ⟨st2, List.mem_cons_of_mem _ hst2, hp⟩

theorem pairLinks_mem :
    ∀ (as : List String) (st : String × String), st ∈ pairLinks as →
      st.1 ≠ st.2 ∧ st.1 ∈ as ∧ st.2 ∈ as := by
  intro as
  induction as with
  | nil => intro st h; simp [pairLinks] at h
  | cons a rest ih =>
    intro st h
    rw [pairLinks] at h
    rcases List.mem_append.mp h with hl | hr
    · rcases List.mem_map.mp hl with ⟨b, hb, he⟩
      have hbf := List.mem_filter.mp hb
      have hne : a ≠ b := by simpa using hbf.2
      rw [← he]
      exact ⟨hne, List.mem_cons_self _ _, List.mem_cons_of_mem _ hbf.1⟩
    · obtain ⟨h1, h2, h3⟩ := ih st hr
      exact ⟨h1, List.mem_cons_of_mem _ h2, List.mem_cons_of_mem _ h3⟩

theorem sortPair_cases (st : String × String) :
    sortPair st = st ∨ sortPair st = (st.2, st.1) := by
  rw [sortPair]
  by_cases h : strLeB st.1 st.2
  · rw [if_pos h]; exact Or.inl rfl
  · rw [if_neg h]; exact Or.inr rfl

theorem authorLinks_mem (gs : List Group) :
    ∀ st ∈ authorLinks gs, ∃ g ∈ gs, st ∈ pairLinks (groupAuthors g) := by
  intro st h
  rw [authorLinks] at h
  rcases List.mem_flatten.mp h with ⟨l, hl, hst⟩
  rcases List.mem_map.mp hl with ⟨g, hg, he⟩
  exact ⟨g, hg, he ▸ hst⟩

theorem insertNew_mem (a : String) (l : List String) (x : String) :
    x ∈ insertNew a l ↔ x ∈ l ∨ x = a := by
  rw [insertNew]
  by_cases h : a ∈ l
  · rw [if_pos h]
    constructor
    · exact Or.inl
    · rintro (hc | hc)
      · exact hc
      · exact hc ▸ h
  · rw [if_neg h]
    simp

theorem foldl_insertNew_mem (x : String) :
    ∀ (as : List String) (acc : List String),
      x ∈ as.foldl (fun ac a => insertNew a ac) acc ↔ x ∈ acc ∨ x ∈ as := by
  intro as
  induction as with
  | nil => intro acc; simp
  | cons a rest ih =>
    intro acc
    rw [List.foldl_cons, ih, insertNew_mem]
    simp only [List.mem_cons]
    tauto

theorem authorNodes_mem (x : String) :
    ∀ gs : List Group, x ∈ authorNodes gs ↔ ∃ g ∈ gs, x ∈ groupAuthors g := by
  suffices h : ∀ (gs : List Group) (acc : List String),
      x ∈ gs.foldl (fun acc g => (groupAuthors g).foldl (fun ac a => insertNew a ac) acc) acc ↔
        x ∈ acc ∨ ∃ g ∈ gs, x ∈ groupAuthors g by
    intro gs
    rw [authorNodes, h gs []]
    simp
  intro gs
  induction gs with
  | nil => intro acc; simp
  | cons g rest ih =>
    intro acc
    rw [List.foldl_cons, ih, foldl_insertNew_mem]
    constructor
    · rintro ((hc | hc) | ⟨g2, hg2, hx⟩)
      · exact Or.inl hc
      · exact Or.inr ⟨g, List.mem_cons_self _ _, hc⟩
      · exact Or.inr ⟨g2, List.mem_cons_of_mem _ hg2, hx⟩
    · rintro (hc | ⟨g2, hg2, hx⟩)
      · exact Or.inl (Or.inl hc)
      · rcases List.mem_cons.mp hg2 with he | hm
        · exact Or.inl (Or.inr (he ▸ hx))
        · exact Or.inr ⟨g2, hm, hx⟩

theorem uniqueLinks_weight_exact (gs : List Group) :
    ∀ l ∈ uniqueLinks gs,
      l.source ≠ l.target ∧
      l.weight = (authorLinks gs).countP fun st => decide (sortPair st = (l.source, l.target)) := by
  intro l hl
  rw [uniqueLinks] at hl
  rcases List.mem_map.mp hl with ⟨kx, hkx, he⟩
  have hsrc : l.source = kx.1.1 := by rw [← he]
  have htgt : l.target = kx.1.2 := by rw [← he]
  have hwt : l.weight = kx.2 := by rw [← he]
  obtain ⟨st, hst, hp⟩ := linkWeights_mem_src (authorLinks gs) kx hkx
  obtain ⟨g, hg, hpl⟩ := authorLinks_mem gs st hst
  obtain ⟨hne, -, -⟩ := pairLinks_mem (groupAuthors g) st hpl
  constructor
  · rcases sortPair_cases st with hc | hc
    · rw [hsrc, htgt, ← hp, hc]
      exact hne
    · rw [hsrc, htgt, ← hp, hc]
      exact fun hh => hne hh.symm
  · have hfind : assocFind kx.1 (linkWeights (authorLinks gs)) = kx.2 :=
      assocFind_of_mem kx.1 kx.2 (linkWeights (authorLinks gs))
        (linkWeights_keys_nodup (authorLinks gs)) (by rw [Prod.mk.eta]; exact hkx)
    have hfold : assocFind kx.1 (linkWeights (authorLinks gs)) =
        (authorLinks gs).countP fun st => decide (sortPair st = kx.1) := by
      rw [linkWeights]
      rw [assocFind_foldl kx.1 (authorLinks gs) []]
      simp [assocFind]
    rw [hwt, ← hfind, hfold, hsrc, htgt, Prod.mk.eta]

theorem uniqueLinks_keys_nodup (gs : List Group) :
    ((uniqueLinks gs).map fun l => (l.source, l.target)).Nodup := by
  have h := linkWeights_keys_nodup (authorLinks gs)
  rw [uniqueLinks]
  rw [List.map_map]
  have he : ((fun l : Link => (l.source, l.target)) ∘
      fun kx : (String × String) × Nat => Link.mk kx.1.1 kx.1.2 kx.2) = Prod.fst := by
    funext kx
    simp [Function.comp]
  rw [he]
  exact h

theorem uniqueLinks_endpoints_in_nodes (gs : List Group) :
    ∀ l ∈ uniqueLinks gs, l.source ∈ authorNodes gs ∧ l.target ∈ authorNodes gs := by
  intro l hl
  rw [uniqueLinks] at hl
  rcases List.mem_map.mp hl with ⟨kx, hkx, he⟩
  obtain ⟨st, hst, hp⟩ := linkWeights_mem_src (authorLinks gs) kx hkx
  obtain ⟨g, hg, hpl⟩ := authorLinks_mem gs st hst
  obtain ⟨-, h1, h2⟩ := pairLinks_mem (groupAuthors g) st hpl
  have hsrc : l.source = kx.1.1 := by rw [← he]
  have htgt : l.target = kx.1.2 := by rw [← he]
  rcases sortPair_cases st with hc | hc
  · rw [hsrc, htgt, ← hp, hc]
    exact ⟨(authorNodes_mem st.1 gs).mpr ⟨g, hg, h1⟩, (authorNodes_mem st.2 gs).mpr ⟨g, hg, h2⟩⟩
  · rw [hsrc, htgt, ← hp, hc]
    exact ⟨(authorNodes_mem st.2 gs).mpr ⟨g, hg, h2⟩, (authorNodes_mem st.1 gs).mpr ⟨g, hg, h1⟩⟩

theorem scanWindow_threshold_mono (sim : Nat → Nat → ℚ) (i : Nat) (p : Post)
    (θ1 θ2 : ℚ) (hθ : θ1 ≤ θ2) :
    ∀ (cs : List (Nat × Post)) (p1 p2 : List Nat),
      (cs.map Prod.fst).Nodup →
      (∀ x, x ∈ p2 → x ∈ p1) →
      (∀ x, x ∈ p1 → x ∉ p2 → x ∉ cs.map Prod.fst) →
      ∀ j ∈ (scanWindow sim θ2 i p cs p2).1.map Member.idx,
        j ∈ (scanWindow sim θ1 i p cs p1).1.map Member.idx := by
  intro cs
  induction cs with
  | nil =>
    intro p1 p2 _ _ _ j hj
    rw [scanWindow_nil] at hj
    simp at hj
  | cons jq rest ih =>
    intro p1 p2 hnd hsub hextra j hj
    simp only [List.map_cons, List.nodup_cons] at hnd
    obtain ⟨hjqr, hndr⟩ := hnd
    have hextraR : ∀ x, x ∈ p1 → x ∉ p2 → x ∉ rest.map Prod.fst := by
      intro x h1 h2 hc
      exact hextra x h1 h2 (List.mem_cons_of_mem _ hc)
    rw [scanWindow_cons] at hj ⊢
    by_cases hskip : jq.1 = i ∨ jq.1 ∈ p2
    · rcases hskip with he | hm
      · rw [if_pos (Or.inl he)] at hj ⊢
        exact ih p1 p2 hndr hsub hextraR j hj
      · rw [if_pos (Or.inr hm)] at hj
        rw [if_pos (Or.inr (hsub jq.1 hm))]
        exact ih p1 p2 hndr hsub hextraR j hj
    · push_neg at hskip
      obtain ⟨hni, hnp2⟩ := hskip
      have hnp1 : jq.1 ∉ p1 := by
        intro hc
        exact hextra jq.1 hc hnp2 (List.mem_cons_self _ _)
      rw [if_neg (by push_neg; exact ⟨hni, hnp2⟩)] at hj
      rw [if_neg (by push_neg; exact ⟨hni, hnp1⟩)]
      by_cases h2 : θ2 ≤ boostedScore sim i jq.1 p jq.2
      · have h1 : θ1 ≤ boostedScore sim i jq.1 p jq.2 := le_trans hθ h2
        rw [if_pos h2] at hj
        rw [if_pos h1]
        simp only [List.map_cons, List.mem_cons] at hj ⊢
        rcases hj with he | hm
        · exact Or.inl he
        · refine Or.inr (ih (jq.1 :: p1) (jq.1 :: p2) hndr ?_ ?_ j hm)
          · intro x hx
            rcases List.mem_cons.mp hx with he2 | hm2
            · exact he2 ▸ List.mem_cons_self _ _
            · exact List.mem_cons_of_mem _ (hsub x hm2)
          · intro x hx1 hx2
            rcases List.mem_cons.mp hx1 with he2 | hm2
            · exact absurd (he2 ▸ List.mem_cons_self jq.1 p2) hx2
            · exact hextraR x hm2 fun hc => hx2 (List.mem_cons_of_mem _ hc)
      · rw [if_neg h2] at hj
        by_cases h1 : θ1 ≤ boostedScore sim i jq.1 p jq.2
        · rw [if_pos h1]
          simp only [List.map_cons, List.mem_cons]
          refine Or.inr (ih (jq.1 :: p1) p2 hndr ?_ ?_ j hj)
          · intro x hx
            exact List.mem_cons_of_mem _ (hsub x hx)
          · intro x hx1 hx2
            rcases List.mem_cons.mp hx1 with he2 | hm2
            · exact he2 ▸ hjqr
            · exact hextraR x hm2 hx2
        · rw [if_neg h1]
          exact ih p1 p2 hndr hsub hextraR j hj

theorem scanWindow_threshold_mono_simple (sim : Nat → Nat → ℚ) (i : Nat) (p : Post)
    (θ1 θ2 : ℚ) (cs : List (Nat × Post)) (processed : List Nat)
    (hθ : θ1 ≤ θ2) (hnd : (cs.map Prod.fst).Nodup) :
    ∀ j ∈ (scanWindow sim θ2 i p cs processed).1.map Member.idx,
      j ∈ (scanWindow sim θ1 i p cs processed).1.map Member.idx :=
  scanWindow_threshold_mono sim i p θ1 θ2 hθ cs processed processed hnd
    (fun _ h => h) (fun _ h1 h2 => absurd h1 h2)

/-- C1: the spec claims an empty filtered corpus yields zero groups, an empty
graph and all-zero metrics without raising.  The code instead raises: line 930
computes authors_involved_percentage by dividing by the filtered corpus's
distinct author count, which is 0, a Python ZeroDivisionError.  This holds
whatever the vectorisation stage does. -/
theorem c1_empty_filtered_corpus_raises
    (vectorize : List Post → Except String (Nat → Nat → ℚ)) :
    (getCoordinatedBehavior [samplePost "a" 0] "zzz" 3600 (mkRat 7 10) vectorize).response
      = .error "ZeroDivisionError: division by zero" := by
  have hz : nuniqueAuthors (filterByQuery [samplePost "a" 0] "zzz") = 0 := by decide
  rcases hv : vectorize (sortByTime (filterByQuery [samplePost "a" 0] "zzz")) with e | sim
  · simp only [getCoordinatedBehavior, hv, assemble]
    rw [if_pos hz]
  · simp only [getCoordinatedBehavior, hv, assemble]
    rw [if_pos hz]

/-- C2: every post of the filtered corpus (identified by its position in the
time-sorted list) is a member of at most one emitted coordination group, with
no duplicates inside a group, and every emitted group has at least 2 members. -/
theorem c2_partition_property (sim : Nat → Nat → ℚ) (posts : List Post) (θ : ℚ) (w : Int) :
    (∀ G ∈ clusterGroups sim posts θ w, 2 ≤ (igIndices G).length ∧ (igIndices G).Nodup) ∧
    ∀ j : Nat,
      ((clusterGroups sim posts θ w).countP fun G => decide (j ∈ igIndices G)) ≤ 1 :=
  clusterGroups_partition sim posts θ w

theorem c2_partition_property_witness :
    (2 ≤ (igIndices groupABC).length ∧ (igIndices groupABC).Nodup) ∧
    ((clusterGroups simOne postsABC (mkRat 7 10) 3600).countP
      fun G => decide ((1 : Nat) ∈ igIndices G)) ≤ 1 :=
  ⟨(c2_partition_property simOne postsABC (mkRat 7 10) 3600).1 groupABC (by decide),
   (c2_partition_property simOne postsABC (mkRat 7 10) 3600).2 1⟩

/-- C6: in every emitted group, every non-anchor member's timestamp lies in
the closed interval from the anchor's timestamp to the anchor's timestamp plus
the time window (the window is forward-only and inclusive at both ends). -/
theorem c6_window_containment (sim : Nat → Nat → ℚ) (posts : List Post) (θ : ℚ) (w : Int) :
    ∀ G ∈ clusterGroups sim posts θ w, ∀ m ∈ G.mems,
      G.anchor.created_utc ≤ m.post.created_utc ∧
      m.post.created_utc ≤ G.anchor.created_utc + w :=
  clusterGroups_window sim posts θ w

theorem c6_window_containment_witness :
    (0 : Int) ≤ (samplePost "b" 1).created_utc ∧
      (samplePost "b" 1).created_utc ≤ (0 : Int) + 3600 :=
  c6_window_containment simOne postsABC (mkRat 7 10) 3600 groupABC (by decide)
    ⟨1, samplePost "b" 1, false, false, mkRat 1 1⟩ (by decide)

/-- C5: a post that was visited as an anchor while unclaimed and failed to
form a group of at least 2 members is never claimed afterwards: it belongs to
no emitted group, neither as anchor nor as a member of a later group.  This
relies on the similarity function being symmetric, which cosine similarity and
both boosts are. -/
theorem c5_failed_anchor_in_no_group (sim : Nat → Nat → ℚ) (posts : List Post)
    (θ : ℚ) (w : Int) (hsym : ∀ i j : Nat, sim i j = sim j i) :
    ∀ fp ∈ failedAnchors sim posts θ w, ∀ G ∈ clusterGroups sim posts θ w,
      fp.1 ∉ igIndices G :=
  clusterRun_fails_unclaimed sim posts θ w hsym

theorem c5_failed_anchor_in_no_group_witness :
    (2 : Nat) ∉ igIndices groupABC :=
  c5_failed_anchor_in_no_group simOne postsABC (mkRat 7 10) 3600 (fun _ _ => rfl)
    (2, samplePost "c" 5000) (by decide) groupABC (by decide)

/-- C10: in every emitted group, the first serialised entry is the anchor and
carries no similarity_score key, while every other entry carries the boosted
similarity against the anchor rounded to 3 decimal places, and the unrounded
boosted similarity was at least the threshold when the member was admitted. -/
theorem c10_member_entry_scores (sim : Nat → Nat → ℚ) (posts : List Post) (θ : ℚ)
    (w : Int) (gid : Nat) :
    ∀ G ∈ clusterGroups sim posts θ w,
      (mkGroup gid G).posts.head? = some (anchorEntry G.anchor) ∧
      (anchorEntry G.anchor).similarity_score = none ∧
      (mkGroup gid G).posts.tail = G.mems.map memberEntry ∧
      ∀ m ∈ G.mems,
        (memberEntry m).similarity_score =
          some (round3 (boostedScore sim G.anchorIdx m.idx G.anchor m.post)) ∧
        θ ≤ boostedScore sim G.anchorIdx m.idx G.anchor m.post := by
  intro G hG
  refine ⟨rfl, rfl, rfl, ?_⟩
  intro m hm
  obtain ⟨hsc, hθm⟩ := clusterGroups_scores sim posts θ w G hG m hm
  constructor
  · rw [memberEntry, hsc]
  · exact hsc ▸ hθm

theorem c10_member_entry_scores_witness :
    ((mkGroup 0 groupABC).posts.head? = some (anchorEntry groupABC.anchor) ∧
      (anchorEntry groupABC.anchor).similarity_score = none ∧
      (mkGroup 0 groupABC).posts.tail = groupABC.mems.map memberEntry ∧
      ∀ m ∈ groupABC.mems,
        (memberEntry m).similarity_score =
          some (round3 (boostedScore simOne groupABC.anchorIdx m.idx groupABC.anchor m.post)) ∧
        mkRat 7 10 ≤ boostedScore simOne groupABC.anchorIdx m.idx groupABC.anchor m.post) :=
  c10_member_entry_scores simOne postsABC (mkRat 7 10) 3600 0 groupABC (by decide)

/-- C3 counterexample: on three identical posts (authors a, a, b) in one
group, the edge a-b carries weight 2 (one per distinct-author member pair)
although the pair co-occurs in exactly 1 group, so edge weight is not the
count of groups in which the pair co-occurs. -/
theorem c3_weight_not_group_count_counterexample :
    respLinks runAAB = [⟨"a", "b", 2⟩] ∧
    ((respGroups runAAB).countP
      fun g => decide ("a" ∈ groupAuthors g ∧ "b" ∈ groupAuthors g)) = 1 ∧
    ¬ (2 : Nat) = 1 :=
  ⟨by decide, by decide, by decide⟩

/-- C3 amended: every edge of the built graph joins two distinct authors,
unordered pairs are collapsed into a single edge (edge keys are distinct),
and each edge's weight equals the number of ordered member-position pairs
with distinct authors, summed over all groups, whose unordered author pair
is that edge's pair (so an author posting twice in one group counts twice). -/
theorem c3_amended_edge_weights (gs : List Group) :
    (∀ l ∈ uniqueLinks gs, l.source ≠ l.target ∧
      l.weight = (authorLinks gs).countP
        fun st => decide (sortPair st = (l.source, l.target))) ∧
    ((uniqueLinks gs).map fun l => (l.source, l.target)).Nodup :=
  ⟨uniqueLinks_weight_exact gs, uniqueLinks_keys_nodup gs⟩

theorem c3_amended_edge_weights_witness :
    ("a" : String) ≠ "b" ∧
    (2 : Nat) = (authorLinks (respGroups runAAB)).countP
      fun st => decide (sortPair st = ("a", "b")) :=
  (c3_amended_edge_weights (respGroups runAAB)).1 ⟨"a", "b", 2⟩ (by decide)

/-- C4 counterexample: with a symmetric similarity matrix within the engine's
contract, raising the threshold from 2/5 to 9/10 increases the total number
of (post, group) memberships from 3 to 4: at the low threshold the first
post claims the second and third, while at the high threshold the first
anchor fails and the second post claims three posts, two of which lie
outside the first post's window. -/
theorem c4_threshold_not_monotone_counterexample :
    mkRat 2 5 ≤ mkRat 9 10 ∧
    totalMemberships (clusterGroups simC4 postsC4 (mkRat 2 5) 3600) = 3 ∧
    totalMemberships (clusterGroups simC4 postsC4 (mkRat 9 10) 3600) = 4 :=
  ⟨by decide, by decide, by decide⟩

/-- C4 amended: the monotone effect of the threshold holds for each single
anchor scan over a fixed candidate list and claimed set: every candidate
admitted at the higher threshold is admitted at the lower one.  The
end-to-end total membership count is not monotone (see the counterexample):
greedy claiming lets a raised threshold re-shape later windows. -/
theorem c4_amended_scan_monotone (sim : Nat → Nat → ℚ) (i : Nat) (p : Post)
    (θ1 θ2 : ℚ) (cs : List (Nat × Post)) (processed : List Nat)
    (hθ : θ1 ≤ θ2) (hnd : (cs.map Prod.fst).Nodup) :
    ∀ j ∈ (scanWindow sim θ2 i p cs processed).1.map Member.idx,
      j ∈ (scanWindow sim θ1 i p cs processed).1.map Member.idx :=
  scanWindow_threshold_mono_simple sim i p θ1 θ2 cs processed hθ hnd

theorem c4_amended_scan_monotone_witness :
    (1 : Nat) ∈ (scanWindow simOne (mkRat 2 5) 0 (samplePost "a" 0)
      [(0, samplePost "a" 0), (1, samplePost "b" 5)] []).1.map Member.idx :=
  c4_amended_scan_monotone simOne 0 (samplePost "a" 0) (mkRat 2 5) (mkRat 9 10)
    [(0, samplePost "a" 0), (1, samplePost "b" 5)] [] (by decide) (by decide)
    1 (by decide)

/-- C7 counterexample: when vectorisation fails, the code catches the error
and returns zero groups, but the diagnostic only goes to the server console
(printed); the JSON response is an ordinary empty result carrying no
diagnostic message at all, contradicting the claim that a diagnostic is
attached to the response. -/
theorem c7_no_diagnostic_in_response_counterexample :
    runABfail.printed = [failMsg] ∧
    runABfail.response = .ok
      { nodes := [], links := [], groups := [],
        metrics :=
          { total_groups := 0, total_authors := 0, total_connections := 0,
            density := mkRat 0 1, avg_group_size := mkRat 0 1,
            authors_involved_percentage := mkRat 0 1,
            time_window_seconds := 3600, similarity_threshold := mkRat 7 10 } } :=
  ⟨by decide, by decide⟩

/-- C7 amended: an internal vectorisation failure is caught and never crashes
the query (provided the filtered corpus has at least one distinct author,
else line 930 raises independently): the response is a normal body with zero
groups, and the diagnostic message is printed to the console rather than
attached to the response. -/
theorem c7_amended_failure_degrades (corpus : List Post) (query : String)
    (tw : Int) (θ : ℚ) (e : String)
    (hne : nuniqueAuthors (filterByQuery corpus query) ≠ 0) :
    (getCoordinatedBehavior corpus query tw θ (fun _ => .error e)).printed
        = ["Advanced coordination detection failed: " ++ e] ∧
    (getCoordinatedBehavior corpus query tw θ (fun _ => .error e)).response = .ok
      { nodes := [], links := [], groups := [],
        metrics :=
          { total_groups := 0, total_authors := 0, total_connections := 0,
            density := mkRat 0 1, avg_group_size := mkRat 0 1,
            authors_involved_percentage :=
              qmul (mkRat 0 (nuniqueAuthors (filterByQuery corpus query))) (mkRat 100 1),
            time_window_seconds := tw, similarity_threshold := θ } } := by
  simp only [getCoordinatedBehavior, assemble]
  rw [if_neg hne]
  exact ⟨rfl, rfl⟩

theorem c7_amended_failure_degrades_witness :
    ¬ nuniqueAuthors (filterByQuery postsAB "") = 0 ∧
    (getCoordinatedBehavior postsAB "" 3600 (mkRat 7 10)
        (fun _ => .error "empty vocabulary; perhaps the documents only contain stop words")).printed
      = ["Advanced coordination detection failed: " ++
          "empty vocabulary; perhaps the documents only contain stop words"] :=
  ⟨by decide,
   (c7_amended_failure_degrades postsAB "" 3600 (mkRat 7 10)
     "empty vocabulary; perhaps the documents only contain stop words" (by decide)).1⟩

/-- C8: the façade performs no clamping and no validation of time_window or
similarity_threshold: with time_window = -5 the pipeline runs to completion
and returns a normal 200-style response echoing the out-of-bounds value,
rather than rejecting it with a validation error as the spec requires. -/
theorem c8_out_of_bounds_window_not_rejected :
    runNegWindow.response = .ok
      { nodes := [], links := [], groups := [],
        metrics :=
          { total_groups := 0, total_authors := 0, total_connections := 0,
            density := mkRat 0 1, avg_group_size := mkRat 0 1,
            authors_involved_percentage := mkRat 0 1,
            time_window_seconds := -5, similarity_threshold := mkRat 7 10 } } := by
  decide

/-- C9 counterexample: a group whose two members share one author yields the
node a with no incident edge: the node set is built from group member
authors, not from edge endpoints, so the claimed equality fails. -/
theorem c9_edgeless_node_counterexample :
    respNodes runAA = [⟨"a", 2, 1⟩] ∧ respLinks runAA = [] ∧
    (respGroups runAA).length = 1 :=
  ⟨by decide, by decide, by decide⟩

/-- C9 amended: the node set equals the set of authors appearing among any
emitted group's members; every edge endpoint is such a node, but a node can
lack incident edges (when every group containing it has all members by one
author). -/
theorem c9_amended_nodes_from_groups (gs : List Group) :
    (∀ a : String, a ∈ authorNodes gs ↔ ∃ g ∈ gs, a ∈ groupAuthors g) ∧
    ∀ l ∈ uniqueLinks gs, l.source ∈ authorNodes gs ∧ l.target ∈ authorNodes gs :=
  ⟨fun a => authorNodes_mem a gs, uniqueLinks_endpoints_in_nodes gs⟩

theorem c9_amended_nodes_from_groups_witness :
    (("a" : String) ∈ authorNodes (respGroups runAA)) ∧
    (("a" : String) ∈ authorNodes (respGroups runAAB) ∧
      ("b" : String) ∈ authorNodes (respGroups runAAB)) :=
  ⟨((c9_amended_nodes_from_groups (respGroups runAA)).1 "a").mpr
    ⟨mkGroup 0 groupAA, by decide, by decide⟩,
   (c9_amended_nodes_from_groups (respGroups runAAB)).2 ⟨"a", "b", 2⟩ (by decide)⟩

end Coordination
